import Mathlib

/-!
Verification of the reviews backend (serverless handlers for review
submission, moderation, listing, and top-review pinning).

The development embeds the JavaScript handlers as executable Lean
functions:

* a model of the JavaScript values produced by `JSON.parse` (`JsonVal`)
  together with an executable JSON parser (`parseJSON`) modelling
  `JSON.parse` wrapped in try/catch (the handlers' `safeJSON`);
* the moderation pipeline of `netlify/functions/addReview.js`
  (classification extraction with `??` defaults, the status policy,
  and the insert);
* the rerank pipeline of `netlify/functions/autoPinTopReviews.js`
  (eligible-review fetch, candidate projection, code-fence cleaning,
  top-id extraction, and the two-phase unpin/pin update, with store
  errors injected through an explicit behaviour record);
* the session reordering of `netlify/functions/getReviews.js`
  (JavaScript `parseInt` plus `findIndex`/slice move-to-front).

Machine numbers are modelled as exact rationals; decimal literals such
as 0.3 are exact in ℚ and in binary floating point the comparisons of
the moderation policy behave identically on the constants involved.
-/

/-! ## JavaScript JSON values -/

/-- A JavaScript value as produced by `JSON.parse`: null, booleans,
numbers (modelled as exact rationals), strings, arrays and objects.
Object members are kept in source order; later duplicates win on
lookup, as in JavaScript. -/
inductive JsonVal where
  | null
  | bool (b : Bool)
  | num (q : ℚ)
  | str (s : String)
  | arr (xs : List JsonVal)
  | obj (kvs : List (String × JsonVal))

/-- Property lookup `v[k]`: `some` the value of the last member named
`k` when `v` is an object (JavaScript objects keep the last duplicate
key), `none` (undefined) otherwise. -/
def jGet (v : JsonVal) (k : String) : Option JsonVal :=
  match v with
  | .obj kvs => kvs.foldl (fun acc kv => if kv.1 = k then some kv.2 else acc) none
  | _ => none

/-- Index lookup `v[i]` for arrays; `none` (undefined) otherwise. -/
def jGetIdx (v : JsonVal) (i : ℕ) : Option JsonVal :=
  match v with
  | .arr xs => xs.get? i
  | _ => none

/-- JavaScript truthiness of a parsed JSON value (NaN cannot occur in
parsed JSON). -/
def jsTruthy : JsonVal → Bool
  | .null => false
  | .bool b => b
  | .num q => decide (q ≠ 0)
  | .str s => decide (s ≠ "")
  | .arr _ => true
  | .obj _ => true

/-- Truthiness of a possibly-undefined value (`none` is `undefined`). -/
def jsTruthyOpt (o : Option JsonVal) : Bool :=
  o.elim false jsTruthy

/-! ## The JSON parser (model of `JSON.parse` / `safeJSON`)

`safeJSON` in both handlers is `try JSON.parse(text) catch -> null`;
the model returns `none` where `JSON.parse` throws.  The parser is a
recursive-descent parser over the character list, structurally
recursive on a fuel argument; the top level trims outer whitespace
first (exactly what `JSON.parse` tolerates) and then requires the
value to consume the whole remaining input, so the fuel bound
`length + 1` always suffices (every descent consumes a character). -/

/-- JSON insignificant whitespace (also the common JavaScript trim
characters occurring in classifier output). -/
def isWsChar (c : Char) : Bool :=
  c = ' ' || c = '\n' || c = '\t' || c = '\r'

def isDigitChar (c : Char) : Bool :=
  '0' ≤ c && c ≤ '9'

/-- Numeric value of a decimal digit list, most significant first. -/
def digitsToNat (ds : List Char) : ℕ :=
  ds.foldl (fun a c => 10 * a + (c.toNat - '0'.toNat)) 0

/-- Drop leading whitespace. -/
def dropWs (l : List Char) : List Char :=
  l.dropWhile isWsChar

/-- Drop trailing whitespace. -/
def dropTrailWs (l : List Char) : List Char :=
  (l.reverse.dropWhile isWsChar).reverse

/-- Trim both ends, the model of JavaScript `String.prototype.trim`
restricted to the whitespace the handlers encounter. -/
def trimWs (l : List Char) : List Char :=
  dropWs (dropTrailWs l)

/-- Value of a hexadecimal digit, for `\uXXXX` escapes (code points
48-57 are the digits, 97-102 and 65-70 the lower- and upper-case
letters). -/
def hexDigitVal (c : Char) : Option ℕ :=
  let n := c.toNat
  if 48 ≤ n ∧ n ≤ 57 then some (n - 48)
  else if 97 ≤ n ∧ n ≤ 102 then some (n - 87)
  else if 65 ≤ n ∧ n ≤ 70 then some (n - 55)
  else none

def hexQuad (a b c d : Char) : Option ℕ := do
  let x ← hexDigitVal a
  let y ← hexDigitVal b
  let z ← hexDigitVal c
  let w ← hexDigitVal d
  some (((x * 16 + y) * 16 + z) * 16 + w)

/-- Single-character escapes after a backslash in a JSON string. -/
def escCharVal (c : Char) : Option Char :=
  if c = '"' then some '"'
  else if c = '\\' then some '\\'
  else if c = '/' then some '/'
  else if c = 'b' then some (Char.ofNat 8)
  else if c = 'f' then some (Char.ofNat 12)
  else if c = 'n' then some '\n'
  else if c = 'r' then some '\r'
  else if c = 't' then some '\t'
  else none

/-- High surrogate code unit. -/
def isHighSur (h : ℕ) : Bool := 0xD800 ≤ h && h ≤ 0xDBFF

/-- Low surrogate code unit. -/
def isLowSur (h : ℕ) : Bool := 0xDC00 ≤ h && h ≤ 0xDFFF

/-- Flush a pending unmatched high surrogate (a lone surrogate is a
legal JavaScript string unit but not a Unicode scalar; it is modelled
as U+FFFD). -/
def withPend (pend : Option ℕ) (tail : List Char) : List Char :=
  match pend with
  | some _ => Char.ofNat 0xFFFD :: tail
  | none => tail

/-- Parse the body of a JSON string literal (opening quote already
consumed): returns the decoded characters and the rest of the input.
`pend` carries a high surrogate read from a previous `\u` escape so
that surrogate pairs are combined as `JSON.parse` does.  Raw control
characters are rejected, as in `JSON.parse`. -/
def parseStrChars : Option ℕ → List Char → Option (List Char × List Char)
  | pend, '"' :: r => some (withPend pend [], r)
  | pend, '\\' :: 'u' :: a :: b :: c :: d :: r =>
      (match hexQuad a b c d with
       | none => none
       | some h =>
         if isHighSur h then
           match parseStrChars (some h) r with
           | some (cs, rest) => some (withPend pend cs, rest)
           | none => none
         else if isLowSur h then
           match pend with
           | some hh =>
               (match parseStrChars none r with
                | some (cs, rest) =>
                    some (Char.ofNat (0x10000 + (hh - 0xD800) * 0x400 + (h - 0xDC00)) :: cs, rest)
                | none => none)
           | none =>
               (match parseStrChars none r with
                | some (cs, rest) => some (Char.ofNat 0xFFFD :: cs, rest)
                | none => none)
         else
           match parseStrChars none r with
           | some (cs, rest) => some (withPend pend (Char.ofNat h :: cs), rest)
           | none => none)
  | pend, '\\' :: c :: r =>
      (match escCharVal c with
       | none => none
       | some e =>
         match parseStrChars none r with
         | some (cs, rest) => some (withPend pend (e :: cs), rest)
         | none => none)
  | pend, c :: r =>
      if c.toNat < 0x20 then none
      else
        match parseStrChars none r with
        | some (cs, rest) => some (withPend pend (c :: cs), rest)
        | none => none
  | _, [] => none

/-- Optional fraction part of a JSON number: the fraction digits and
the rest of the input (`none` on a dot without digits, which
`JSON.parse` rejects). -/
def parseFrac (l : List Char) : Option (List Char × List Char) :=
  match l with
  | '.' :: r =>
      let fds := r.takeWhile isDigitChar
      if fds = [] then none else some (fds, r.dropWhile isDigitChar)
  | _ => some ([], l)

/-- Optional exponent part of a JSON number: exponent sign and value
and the rest of the input (`none` on an exponent marker without
digits). -/
def parseExpPart (l : List Char) : Option (Bool × ℕ × List Char) :=
  match l with
  | c :: r =>
      if c = 'e' ∨ c = 'E' then
        let (negE, r1) : Bool × List Char :=
          match r with
          | '+' :: r2 => (false, r2)
          | '-' :: r2 => (true, r2)
          | _ => (false, r)
        let eds := r1.takeWhile isDigitChar
        if eds = [] then none
        else some (negE, digitsToNat eds, r1.dropWhile isDigitChar)
      else some (false, 0, l)
  | [] => some (false, 0, [])

/-- Parse a JSON number (sign, integer part without redundant leading
zeros, optional fraction and exponent).  The rational is assembled
with `mkRat` from integer arithmetic only, so it evaluates inside the
kernel. -/
def parseNumCore (l : List Char) : Option (ℚ × List Char) :=
  let (neg, l1) : Bool × List Char :=
    match l with
    | '-' :: r => (true, r)
    | _ => (false, l)
  let ids := l1.takeWhile isDigitChar
  let l2 := l1.dropWhile isDigitChar
  if ids = [] then none
  else if ids.head? = some '0' ∧ ids.length ≠ 1 then none
  else
    match parseFrac l2 with
    | none => none
    | some (fds, l3) =>
      match parseExpPart l3 with
      | none => none
      | some (negE, e, l4) =>
          let m : ℤ := (digitsToNat (ids ++ fds) : ℤ)
          let m : ℤ := if neg then -m else m
          let q : ℚ :=
            if negE then mkRat m (10 ^ (fds.length + e))
            else mkRat (m * (10 : ℤ) ^ e) (10 ^ fds.length)
          some (q, l4)

/-- Consume the tail of a literal keyword (the head character was
already dispatched on). -/
def afterKw : List Char → List Char → Option (List Char)
  | [], l => some l
  | k :: ks, c :: cs => if c = k then afterKw ks cs else none
  | _ :: _, [] => none

mutual

/-- Parse one JSON value after skipping leading whitespace,
dispatching on the first significant character: the literals `null`,
`true` and `false`, strings, objects, arrays, and otherwise a
number. -/
def parseVal : ℕ → List Char → Option (JsonVal × List Char)
  | 0, _ => none
  | fuel + 1, l =>
      match dropWs l with
      | [] => none
      | c :: r =>
        if c = 'n' then
          match afterKw ['u', 'l', 'l'] r with
          | some rest => some (.null, rest)
          | none => none
        else if c = 't' then
          match afterKw ['r', 'u', 'e'] r with
          | some rest => some (.bool true, rest)
          | none => none
        else if c = 'f' then
          match afterKw ['a', 'l', 's', 'e'] r with
          | some rest => some (.bool false, rest)
          | none => none
        else if c = '"' then
          match parseStrChars none r with
          | some (cs, rest) => some (.str (String.mk cs), rest)
          | none => none
        else if c = '{' then
          match dropWs r with
          | '}' :: r2 => some (.obj [], r2)
          | r2 =>
            match parseMembers fuel r2 with
            | some (kvs, rest) => some (.obj kvs, rest)
            | none => none
        else if c = '[' then
          match dropWs r with
          | ']' :: r2 => some (.arr [], r2)
          | r2 =>
            match parseElems fuel r2 with
            | some (xs, rest) => some (.arr xs, rest)
            | none => none
        else
          match parseNumCore (c :: r) with
          | some (q, rest) => some (.num q, rest)
          | none => none

/-- Parse the members of an object, from the first key up to the
closing brace. -/
def parseMembers : ℕ → List Char → Option (List (String × JsonVal) × List Char)
  | 0, _ => none
  | fuel + 1, l =>
      match dropWs l with
      | '"' :: r => do
          let (kcs, r2) ← parseStrChars none r
          match dropWs r2 with
          | ':' :: r3 => do
              let (v, r4) ← parseVal fuel r3
              (match dropWs r4 with
               | ',' :: r5 => do
                   let (kvs, r6) ← parseMembers fuel r5
                   some ((String.mk kcs, v) :: kvs, r6)
               | '}' :: r5 => some ([(String.mk kcs, v)], r5)
               | _ => none)
          | _ => none
      | _ => none

/-- Parse the elements of an array, from the first element up to the
closing bracket. -/
def parseElems : ℕ → List Char → Option (List JsonVal × List Char)
  | 0, _ => none
  | fuel + 1, l => do
      let (v, r) ← parseVal fuel l
      match dropWs r with
      | ',' :: r2 => do
          let (xs, r3) ← parseElems fuel r2
          some (v :: xs, r3)
      | ']' :: r2 => some ([v], r2)
      | _ => none

end

/-- `JSON.parse` on a character list: trim outer whitespace, parse one
value, require it to span the whole input. -/
def parseJsonList (l : List Char) : Option JsonVal :=
  let t := trimWs l
  match parseVal (t.length + 1) t with
  | some (v, rest) => if rest = [] then some v else none
  | none => none

/-- `safeJSON` of the handlers: `JSON.parse` with exceptions mapped to
`none`. -/
def parseJSON (s : String) : Option JsonVal :=
  parseJsonList s.data

/-! ## JavaScript value helpers used by the handlers -/

/-- The JavaScript `x ?? d` applied to the property `v[k]`: the
default fires exactly on `null` and `undefined` (missing property or
non-object receiver). -/
def fieldOr (v : JsonVal) (k : String) (d : JsonVal) : JsonVal :=
  match jGet v k with
  | some .null => d
  | some x => x
  | none => d

/-- The handlers' `safeJSON(text) || <empty object>`: `null` (parse
failure) and falsy parses (`0`, `""`, `false`, `null`) collapse to the
empty object. -/
def orEmptyJs (p : Option JsonVal) : JsonVal :=
  match p with
  | some v => if jsTruthy v then v else .obj []
  | none => .obj []

/-- Strict equality `v === s` against a string literal: true exactly
when `v` is that string (no coercion in `===`). -/
def isStrEq (v : JsonVal) (s : String) : Bool :=
  match v with
  | .str t => decide (t = s)
  | _ => false

/-- JavaScript `Number(s)` on a string: trimmed empty string is 0, a
decimal numeric literal (optional sign, digits, fraction, exponent)
is its value, anything else is NaN (`none`).  Hexadecimal literals
and `Infinity`, accepted by JavaScript but never produced here, are
modelled as NaN. -/
def strToNumJs (s : String) : Option ℚ :=
  let t := trimWs s.data
  if t = [] then some 0
  else
    let (neg, l1) : Bool × List Char :=
      match t with
      | '-' :: r => (true, r)
      | '+' :: r => (false, r)
      | _ => (false, t)
    let ids := l1.takeWhile isDigitChar
    let l2 := l1.dropWhile isDigitChar
    let (fds, l3) : List Char × List Char :=
      match l2 with
      | '.' :: r => (r.takeWhile isDigitChar, r.dropWhile isDigitChar)
      | _ => ([], l2)
    if ids = [] ∧ fds = [] then none
    else
      match parseExpPart l3 with
      | none => none
      | some (negE, e, l4) =>
          if l4 = [] then
            let m : ℤ := (digitsToNat (ids ++ fds) : ℤ)
            let m : ℤ := if neg then -m else m
            some (if negE then mkRat m (10 ^ (fds.length + e))
                  else mkRat (m * (10 : ℤ) ^ e) (10 ^ fds.length))
          else none

/-- JavaScript numeric coercion `ToNumber` of a parsed JSON value;
`none` is NaN.  Arrays and objects coerce through their string
rendering in JavaScript; no handler path compares them, and they are
modelled as NaN. -/
def toNumJs : JsonVal → Option ℚ
  | .num q => some q
  | .null => some 0
  | .bool b => some (if b then 1 else 0)
  | .str s => strToNumJs s
  | .arr _ => none
  | .obj _ => none

/-- JavaScript `v < q` for a numeric literal `q` (false when `v`
coerces to NaN). -/
def jsLtNum (v : JsonVal) (q : ℚ) : Bool :=
  match toNumJs v with
  | some m => decide (m < q)
  | none => false

/-- JavaScript `v >= q` (false when `v` coerces to NaN). -/
def jsGeNum (v : JsonVal) (q : ℚ) : Bool :=
  match toNumJs v with
  | some m => decide (q ≤ m)
  | none => false

/-- JavaScript `v > q` (false when `v` coerces to NaN). -/
def jsGtNum (v : JsonVal) (q : ℚ) : Bool :=
  match toNumJs v with
  | some m => decide (q < m)
  | none => false

/-! ## Moderation policy (`addReview.js` lines 152-160) -/

/-- The status decision of `addReview.js`, on the JavaScript values
`action` and `safety` extracted from the classifier response:

* `action === "allow" && safety < 0.3` gives `approved`;
* otherwise `action === "block" || safety >= 0.7` gives `flagged`;
* otherwise `pending`. -/
def statusOfJs (action safety : JsonVal) : String :=
  if isStrEq action "allow" && jsLtNum safety (mkRat 3 10) then "approved"
  else if isStrEq action "block" || jsGeNum safety (mkRat 7 10) then "flagged"
  else "pending"

/-- The moderation policy on a typed classification result (the
response schema constrains `action` to a string and `safety_score` to
a number). -/
def decideStatus (action : String) (safety : ℚ) : String :=
  statusOfJs (.str action) (.num safety)

/-! ## Classifier response plumbing shared by both handlers -/

/-- The text extraction
`geminiData?.candidates?.[0]?.content?.parts?.[0]?.text || "<empty object>"`
of both handlers.  A present but non-string `text` (never produced by
the provider) is modelled like a missing one. -/
def extractModelText (gd : JsonVal) : String :=
  match (((((jGet gd "candidates").bind (jGetIdx · 0)).bind
      (jGet · "content")).bind (jGet · "parts")).bind
      (jGetIdx · 0)).bind (jGet · "text") with
  | some (.str s) => if s = "" then "\x7b\x7d" else s
  | _ => "\x7b\x7d"

/-! ## Review rows and the create-review handler -/

/-- A row of the `reviews` relation.  `sentiment_score` is stored as
the JavaScript value the handler inserts; `id` is assigned by the
store. -/
structure Review where
  id : ℤ
  business_id : String
  reviewer_name : String
  phone : String
  content : String
  status : String
  sentiment_score : JsonVal
  is_positive : Bool
  pinned : Bool
  created_at : ℤ

/-- The validated body of a create-review request. -/
structure ReviewReq where
  business_id : String
  reviewer_name : String
  phone : String
  content : String

/-- Outcome of the create-review handler after validation: the
500 provider-error response, or the 200 response carrying the derived
status and the analysis fields.  (Error message strings are elided;
store insert errors are not modelled, no claim depends on them.) -/
inductive AddReviewResp where
  | apiErr
  | ok (status : String) (safety sentiment action : JsonVal)

/-- The create-review pipeline of `addReview.js` after validation,
taking the parsed provider response body `gd`: abort with 500 when
`geminiData.error` is truthy; otherwise extract the text, parse it
with `safeJSON(...) || <empty object>`, read the three fields with
their `??` defaults, decide the status, and insert the review (the
store assigns `newId`; `pinned` defaults to false). -/
def addReviewModel (gd : JsonVal) (req : ReviewReq) (store : List Review)
    (newId now : ℤ) : List Review × AddReviewResp :=
  if jsTruthyOpt (jGet gd "error") then (store, .apiErr)
  else
    let result := orEmptyJs (parseJSON (extractModelText gd))
    let safety := fieldOr result "safety_score" (.num (mkRat 1 2))
    let sentiment := fieldOr result "sentiment_score" (.num 0)
    let action := fieldOr result "action" (.str "flag")
    let status := statusOfJs action safety
    let r : Review :=
      { id := newId
        business_id := req.business_id
        reviewer_name := req.reviewer_name
        phone := req.phone
        content := req.content
        status := status
        sentiment_score := sentiment
        is_positive := jsGtNum sentiment 0
        pinned := false
        created_at := now }
    (store ++ [r], .ok status safety sentiment action)

/-! ## Code-fence cleaning (`autoPinTopReviews.js` lines 144-150)

The rerank handler strips markdown code fences before parsing:

* `cleanText.replace(/BTBTBTjson\n?/g, "")` removes every occurrence
  of three backticks followed by `json` and an optional newline;
* `.replace(/BTBTBT\n?/g, "")` removes every occurrence of three
  backticks and an optional newline;

(`BT` stands for the backtick character, written `\x60` below), and
both replacements are applied only when the trimmed text starts with
a fence.  The scans are left-to-right and non-overlapping, exactly
the semantics of a global regex replace. -/

/-- Global replace of `(three backticks)json` plus optional newline. -/
def replJson : List Char → List Char
  | '\x60' :: '\x60' :: '\x60' :: 'j' :: 's' :: 'o' :: 'n' :: '\n' :: r => replJson r
  | '\x60' :: '\x60' :: '\x60' :: 'j' :: 's' :: 'o' :: 'n' :: r => replJson r
  | c :: r => c :: replJson r
  | [] => []

/-- Global replace of three backticks plus optional newline. -/
def replTicks : List Char → List Char
  | '\x60' :: '\x60' :: '\x60' :: '\n' :: r => replTicks r
  | '\x60' :: '\x60' :: '\x60' :: r => replTicks r
  | c :: r => c :: replTicks r
  | [] => []

/-- Strip fences from an already-trimmed text when it starts with a
fence. -/
def cleanCore (t : List Char) : List Char :=
  match t with
  | '\x60' :: '\x60' :: '\x60' :: 'j' :: 's' :: 'o' :: 'n' :: _ => replTicks (replJson t)
  | '\x60' :: '\x60' :: '\x60' :: _ => replTicks t
  | _ => t

/-- The fence-cleaning block of the rerank handler: trim, then strip
fences when the text starts with one. -/
def cleanJs (l : List Char) : List Char :=
  cleanCore (trimWs l)

/-- Wrapping a text in code-fence markers, as in the specification's
fenced-response example. -/
def wrapFence (t : List Char) : List Char :=
  '\x60' :: '\x60' :: '\x60' :: 'j' :: 's' :: 'o' :: 'n' :: '\n' ::
    (t ++ ['\n', '\x60', '\x60', '\x60'])

/-- Texts not containing a backtick (every JSON payload the fences are
meant to wrap). -/
def tickFree (t : List Char) : Prop := '\x60' ∉ t

instance (t : List Char) : Decidable (tickFree t) := by
  unfold tickFree; infer_instance

/-! ## The rerank handler (`autoPinTopReviews.js`) -/

/-- The candidate projection sent to the classifier (lines 82-87):
id, content, reviewer name and sentiment score; the pinned flag and
status are not part of it. -/
structure Cand where
  id : ℤ
  content : String
  reviewer_name : String
  sentiment_score : JsonVal

/-- Projection of a review row to a classifier candidate. -/
def candOf (r : Review) : Cand :=
  { id := r.id
    content := r.content
    reviewer_name := r.reviewer_name
    sentiment_score := r.sentiment_score }

/-- The fetch of step 1: all reviews of the business with status
`approved`. -/
def eligibleOf (b : String) (store : List Review) : List Review :=
  store.filter (fun r => r.business_id = b ∧ r.status = "approved")

/-- Phase (a) of the two-phase update: `update pinned = false where
business_id = b` over the whole relation. -/
def unpinAll (b : String) (store : List Review) : List Review :=
  store.map (fun r => if r.business_id = b then { r with pinned := false } else r)

/-- The store predicate of `.in("id", ids)`: the row id equals one of
the numeric entries of the returned list (a non-numeric entry matches
no row). -/
def idInIds (ids : List JsonVal) (i : ℤ) : Bool :=
  ids.any (fun v =>
    match v with
    | .num m => decide (m = (i : ℚ))
    | _ => false)

/-- Phase (b): `update pinned = true where id in ids` over the whole
relation — no business or status restriction. -/
def pinIds (ids : List JsonVal) (store : List Review) : List Review :=
  store.map (fun r => if idInIds ids r.id then { r with pinned := true } else r)

/-- `safeJSON(cleanText) || <empty object>` of the rerank handler. -/
def rerankResultOf (t : String) : JsonVal :=
  orEmptyJs (parseJsonList (cleanJs t.data))

/-- `result.top_review_ids || []`: the returned array, with `null`,
a missing field and falsy values coalescing to the empty list.  (A
truthy non-array value, which would produce a malformed store query
in the handler, is modelled as no ids.) -/
def topIdsOf (t : String) : List JsonVal :=
  match jGet (rerankResultOf t) "top_review_ids" with
  | some (.arr xs) => xs
  | _ => []

/-- `result.reasoning` as echoed in the success response. -/
def reasoningOf (t : String) : Option JsonVal :=
  jGet (rerankResultOf t) "reasoning"

/-- Injected outcomes of the three store calls of one rerank run
(`some msg` makes the corresponding call fail; a failed update leaves
the relation unchanged, updates being single statements). -/
structure StoreBeh where
  fetchErr : Option String
  unpinErr : Option String
  pinErr : Option String

/-- The error-free store behaviour. -/
def cleanBeh : StoreBeh := { fetchErr := none, unpinErr := none, pinErr := none }

/-- Outcome of one rerank run: a 500 fetch/provider/pin error, the
200 no-reviews short-circuit, or the 200 success response with
`pinnedCount`, `pinnedReviewIds` and `reasoning`. -/
inductive RerankResp where
  | fetchFailed (m : String)
  | noReviews
  | apiErr
  | pinFailed (m : String)
  | ok (pinnedCount : ℕ) (pinnedReviewIds : List JsonVal) (reasoning : Option JsonVal)

/-- The rerank pipeline of `autoPinTopReviews.js` after validation.
`ans` is the provider: the parsed response body as a function of the
candidate list (deterministic by assumption of the idempotence
claim).  Control flow follows the handler: fetch eligible reviews;
short-circuit when none; abort on a truthy `geminiData.error`; clean
and parse the text and read `top_review_ids || []`; phase (a) unpins
the business's rows — on a store error the handler only logs and
continues; phase (b), run only when ids are present, pins `.in("id",
ids)` and aborts with 500 on a store error. -/
def rerankModel (beh : StoreBeh) (ans : List Cand → JsonVal) (b : String)
    (store : List Review) : List Review × RerankResp :=
  match beh.fetchErr with
  | some m => (store, .fetchFailed m)
  | none =>
    let elig := eligibleOf b store
    if elig.isEmpty then (store, .noReviews)
    else
      let gd := ans (elig.map candOf)
      if jsTruthyOpt (jGet gd "error") then (store, .apiErr)
      else
        let t := extractModelText gd
        let ids := topIdsOf t
        let s1 := match beh.unpinErr with
          | some _ => store
          | none => unpinAll b store
        if ids.isEmpty then (s1, .ok ids.length ids (reasoningOf t))
        else
          match beh.pinErr with
          | some m => (s1, .pinFailed m)
          | none => (pinIds ids s1, .ok ids.length ids (reasoningOf t))

/-- The ids a clean run applies: the classifier's list for the
business's eligible candidates. -/
def runIds (ans : List Cand → JsonVal) (b : String) (store : List Review) :
    List JsonVal :=
  topIdsOf (extractModelText (ans ((eligibleOf b store).map candOf)))

/-- The reasoning echoed by a clean run. -/
def runReasoning (ans : List Cand → JsonVal) (b : String) (store : List Review) :
    Option JsonVal :=
  reasoningOf (extractModelText (ans ((eligibleOf b store).map candOf)))

/-! ## The list handler (`getReviews.js`) -/

/-- JavaScript `parseInt(s)` without an explicit radix: skip leading
whitespace, read an optional sign, switch to hexadecimal on a `0x`
marker, and take the longest digit run; no digits is NaN (`none`).
(The double-precision rounding of huge literals is not modelled; ids
are far below 2^53.) -/
def parseIntJs (s : String) : Option ℤ :=
  let l := s.data.dropWhile isWsChar
  let (neg, l1) : Bool × List Char :=
    match l with
    | '-' :: r => (true, r)
    | '+' :: r => (false, r)
    | _ => (false, l)
  let (hex, l2) : Bool × List Char :=
    match l1 with
    | '0' :: 'x' :: r => (true, r)
    | '0' :: 'X' :: r => (true, r)
    | _ => (false, l1)
  let isHexDigitChar : Char → Bool := fun c => (hexDigitVal c).isSome
  let ds := if hex then l2.takeWhile isHexDigitChar else l2.takeWhile isDigitChar
  if ds = [] then none
  else
    let n : ℕ :=
      if hex then ds.foldl (fun a c => 16 * a + ((hexDigitVal c).getD 0)) 0
      else digitsToNat ds
    some (if neg then -(n : ℤ) else (n : ℤ))

/-- The session reordering of `getReviews.js` (lines 59-71): when the
query parameter is present and truthy, find the first fetched review
whose id strictly equals `parseInt(newReviewId)` (`NaN` matches
nothing) and move it to the front with
`[found, ...slice(0, i), ...slice(i+1)]`; otherwise return the
fetched order unchanged. -/
def moveIdFirst (k : ℤ) (reviews : List Review) : List Review :=
  match reviews.findIdx? (fun r => r.id = k) with
  | none => reviews
  | some i =>
    match reviews.get? i with
    | none => reviews
    | some r => r :: (reviews.take i ++ reviews.drop (i + 1))

def reorderForSession (reviews : List Review) (newReviewId : Option String) :
    List Review :=
  match newReviewId with
  | none => reviews
  | some s =>
    if s = "" then reviews
    else
      match parseIntJs s with
      | none => reviews
      | some k => moveIdFirst k reviews

/-! ## Concrete scenario data for witnesses and counterexamples -/

/-- A sample review row. -/
def mkRow (i : ℤ) (b st : String) (p : Bool) : Review :=
  { id := i
    business_id := b
    reviewer_name := "n"
    phone := "p"
    content := "c"
    status := st
    sentiment_score := .num 1
    is_positive := true
    pinned := p
    created_at := i }

/-- A provider response body whose generated text is a JSON object
with the given `top_review_ids` array (serialized) and a fixed
reasoning. -/
def gdTopOf (idsJson : String) : JsonVal :=
  .obj [("candidates", .arr [.obj [("content", .obj [("parts",
    .arr [.obj [("text",
      .str ("\x7b\"top_review_ids\":" ++ idsJson ++ ",\"reasoning\":\"r\"\x7d"))]])])]])]

/-- A provider response body whose generated text is not JSON. -/
def gdBadText : JsonVal :=
  .obj [("candidates", .arr [.obj [("content", .obj [("parts",
    .arr [.obj [("text", .str "not json")]])])]])]

/-- A provider response body reporting an explicit error. -/
def gdProviderErr : JsonVal :=
  .obj [("error", .obj [("message", .str "quota exceeded")])]

/-- A sample validated create-review request. -/
def reqSample : ReviewReq :=
  { business_id := "b1", reviewer_name := "n", phone := "p", content := "c" }

/-- The specification's sample classifier output for a single review. -/
def jsonSample : String :=
  "\x7b\"safety_score\":0.1,\"sentiment_score\":0.8,\"action\":\"allow\"\x7d"

/-! ## Helper lemmas: whitespace trimming -/

theorem head_dropWhile_not {p : Char → Bool} :
    ∀ {l c : _} {rest : List Char}, List.dropWhile p l = c :: rest → p c = false := by
  intro l
  induction l with
  | nil => intro c rest h; simp at h
  | cons a tl ih =>
      intro c rest h
      rw [List.dropWhile_cons] at h
      by_cases hpa : p a
      · rw [if_pos hpa] at h; exact ih h
      · rw [if_neg hpa] at h
        cases h
        simpa using hpa

theorem dropWhile_self_of_head {p : Char → Bool} {l : List Char}
    (h : ∀ c rest, l = c :: rest → p c = false) : List.dropWhile p l = l := by
  cases l with
  | nil => rfl
  | cons a tl => rw [List.dropWhile_cons, if_neg]; simp [h a tl rfl]

theorem dropTrailWs_self {l : List Char}
    (h : ∀ c, l.getLast? = some c → isWsChar c = false) : dropTrailWs l = l := by
  unfold dropTrailWs
  have h2 : List.dropWhile isWsChar l.reverse = l.reverse := by
    apply dropWhile_self_of_head
    intro c rest hrev
    apply h
    rw [← List.head?_reverse, hrev]
    rfl
  rw [h2, List.reverse_reverse]

theorem getLast_dropTrailWs {l : List Char} {c : Char}
    (h : (dropTrailWs l).getLast? = some c) : isWsChar c = false := by
  unfold dropTrailWs at h
  rw [List.getLast?_reverse] at h
  cases hd : List.dropWhile isWsChar l.reverse with
  | nil => rw [hd] at h; simp at h
  | cons a tl =>
      rw [hd] at h
      have hac : a = c := by simpa using h
      subst hac
      exact head_dropWhile_not hd

theorem getLast_trimWs {l : List Char} {c : Char}
    (h : (trimWs l).getLast? = some c) : isWsChar c = false := by
  unfold trimWs dropWs at h
  obtain ⟨w, hw⟩ := List.dropWhile_suffix (l := dropTrailWs l) isWsChar
  apply getLast_dropTrailWs (l := l)
  rw [← hw, List.getLast?_append, h]
  rfl

theorem trimWs_idem (l : List Char) : trimWs (trimWs l) = trimWs l := by
  have h1 : dropTrailWs (trimWs l) = trimWs l :=
    dropTrailWs_self (fun _ hc => getLast_trimWs hc)
  show dropWs (dropTrailWs (trimWs l)) = trimWs l
  rw [h1]
  show List.dropWhile isWsChar (trimWs l) = trimWs l
  apply dropWhile_self_of_head
  intro c rest h
  exact head_dropWhile_not (l := dropTrailWs l) h

theorem trimWs_append_newline (l : List Char) : trimWs (l ++ ['\n']) = trimWs l := by
  show dropWs (dropTrailWs (l ++ ['\n'])) = dropWs (dropTrailWs l)
  have : dropTrailWs (l ++ ['\n']) = dropTrailWs l := by
    unfold dropTrailWs
    rw [List.reverse_append]
    rfl
  rw [this]

/-! ## Helper lemmas: code-fence stripping -/

theorem replJson_cons_ne (c : Char) (r : List Char) (h : c ≠ '\x60') :
    replJson (c :: r) = c :: replJson r := by
  rw [replJson.eq_def]
  split
  · next heq => exact absurd (List.head_eq_of_cons_eq heq) h
  · next heq => exact absurd (List.head_eq_of_cons_eq heq) h
  · next heq =>
      obtain ⟨h1, h2⟩ := List.cons_eq_cons.mp heq
      rw [h1, h2]
  · next heq => exact absurd heq (List.cons_ne_nil c r)

theorem replTicks_cons_ne (c : Char) (r : List Char) (h : c ≠ '\x60') :
    replTicks (c :: r) = c :: replTicks r := by
  rw [replTicks.eq_def]
  split
  · next heq => exact absurd (List.head_eq_of_cons_eq heq) h
  · next heq => exact absurd (List.head_eq_of_cons_eq heq) h
  · next heq =>
      obtain ⟨h1, h2⟩ := List.cons_eq_cons.mp heq
      rw [h1, h2]
  · next heq => exact absurd heq (List.cons_ne_nil c r)

theorem replJson_append_tickFree (t r0 : List Char) (h : tickFree t) :
    replJson (t ++ r0) = t ++ replJson r0 := by
  induction t with
  | nil => rfl
  | cons a tl ih =>
      have ha : a ≠ '\x60' := fun he => h (he ▸ List.mem_cons_self a tl)
      have htl : tickFree tl := fun he => h (List.mem_cons_of_mem a he)
      rw [List.cons_append, replJson_cons_ne a (tl ++ r0) ha, ih htl]
      rfl

theorem replTicks_append_tickFree (t r0 : List Char) (h : tickFree t) :
    replTicks (t ++ r0) = t ++ replTicks r0 := by
  induction t with
  | nil => rfl
  | cons a tl ih =>
      have ha : a ≠ '\x60' := fun he => h (he ▸ List.mem_cons_self a tl)
      have htl : tickFree tl := fun he => h (List.mem_cons_of_mem a he)
      rw [List.cons_append, replTicks_cons_ne a (tl ++ r0) ha, ih htl]
      rfl

theorem mem_trimWs {x : Char} {l : List Char} (h : x ∈ trimWs l) : x ∈ l := by
  unfold trimWs dropWs dropTrailWs at h
  have h1 := (List.dropWhile_sublist (l := dropTrailWs l) isWsChar).mem h
  unfold dropTrailWs at h1
  rw [List.mem_reverse] at h1
  have h2 := (List.dropWhile_sublist (l := l.reverse) isWsChar).mem h1
  rwa [List.mem_reverse] at h2

theorem trimWs_wrapFence (t : List Char) : trimWs (wrapFence t) = wrapFence t := by
  have hlast : ∀ c, (wrapFence t).getLast? = some c → isWsChar c = false := by
    intro c hc
    have hg : (wrapFence t).getLast? = some '\x60' := by
      have he : wrapFence t =
          ['\x60', '\x60', '\x60', 'j', 's', 'o', 'n', '\n'] ++
            (t ++ ['\n', '\x60', '\x60', '\x60']) := rfl
      rw [he, List.getLast?_append, List.getLast?_append]
      rfl
    rw [hg] at hc
    cases hc
    rfl
  show dropWs (dropTrailWs (wrapFence t)) = wrapFence t
  rw [dropTrailWs_self hlast]
  apply dropWhile_self_of_head
  intro c rest h
  unfold wrapFence at h
  cases h
  rfl

theorem cleanJs_wrapFence (t : List Char) (h : tickFree t) :
    cleanJs (wrapFence t) = t ++ ['\n'] := by
  unfold cleanJs
  rw [trimWs_wrapFence]
  show replTicks (replJson (wrapFence t)) = t ++ ['\n']
  unfold wrapFence
  rw [show replJson ('\x60' :: '\x60' :: '\x60' :: 'j' :: 's' :: 'o' :: 'n' :: '\n' ::
        (t ++ ['\n', '\x60', '\x60', '\x60'])) =
      replJson (t ++ ['\n', '\x60', '\x60', '\x60']) from rfl]
  rw [replJson_append_tickFree t _ h]
  rw [show replJson ['\n', '\x60', '\x60', '\x60'] = ['\n', '\x60', '\x60', '\x60'] from rfl]
  rw [replTicks_append_tickFree t _ h]
  rfl

theorem cleanCore_of_head_ne {c : Char} {rest : List Char} (hc : c ≠ '\x60') :
    cleanCore (c :: rest) = c :: rest := by
  rw [cleanCore.eq_def]
  split
  · next heq => exact absurd (List.head_eq_of_cons_eq heq) hc
  · next heq => exact absurd (List.head_eq_of_cons_eq heq) hc
  · rfl

theorem cleanJs_of_tickFree (t : List Char) (h : tickFree t) :
    cleanJs t = trimWs t := by
  unfold cleanJs
  have htf : tickFree (trimWs t) := fun he => h (mem_trimWs he)
  cases htr : trimWs t with
  | nil => rfl
  | cons c rest =>
      have hc : c ≠ '\x60' := by
        intro he
        exact htf (htr ▸ he ▸ List.mem_cons_self c rest)
      exact cleanCore_of_head_ne hc

/-! ## Claim C6: code-fence stripping before parsing -/

/-- C6 (amended): in TopKSelection (rerank) mode the code fences are
stripped before parsing, so for every classifier response text with no
backtick character, parsing the text wrapped in code-fence markers
through the rerank cleaning equals parsing the unfenced text through
the same cleaning.  (SingleReview mode performs no stripping; see the
counterexample.) -/
theorem fence_strip_equal_topk (t : List Char) (h : tickFree t) :
    parseJsonList (cleanJs (wrapFence t)) = parseJsonList (cleanJs t) := by
  rw [cleanJs_wrapFence t h, cleanJs_of_tickFree t h]
  unfold parseJsonList
  rw [trimWs_append_newline, trimWs_idem]

/-- C6 witness: the stripping equality at the specification's sample
classifier output. -/
theorem fence_strip_equal_topk_witness :
    tickFree jsonSample.data ∧
    parseJsonList (cleanJs (wrapFence jsonSample.data)) =
      parseJsonList (cleanJs jsonSample.data) :=
  ⟨by decide, fence_strip_equal_topk jsonSample.data (by decide)⟩

/-- C6 counterexample: in SingleReview (create-review) mode the
handler parses the raw text with no fence stripping, so the
specification's sample output wrapped in code fences does not parse
identically to the unfenced text: the fenced text fails to parse
(falling to the fallback) while the unfenced text parses to the
classification object. -/
theorem fence_not_stripped_single_mode_cx :
    parseJSON (String.mk (wrapFence jsonSample.data)) = none ∧
    parseJSON jsonSample =
      some (.obj [("safety_score", .num (mkRat 1 10)),
                  ("sentiment_score", .num (mkRat 4 5)),
                  ("action", .str "allow")]) :=
  ⟨rfl, rfl⟩

/-! ## Claim C1: the moderation policy -/

theorem mkRat_three_tenths : (mkRat 3 10 : ℚ) = 3 / 10 := by
  rw [Rat.mkRat_eq_div]; norm_num

theorem mkRat_seven_tenths : (mkRat 7 10 : ℚ) = 7 / 10 := by
  rw [Rat.mkRat_eq_div]; norm_num

/-- C1: the moderation policy is total with the rules applied in
order, first match wins: the status is `approved` exactly when
`action = "allow"` and `safety < 0.3` (so at `safety = 0.3` rule 1
does not fire), `flagged` exactly when rule 1 did not fire and
`action = "block"` or `safety >= 0.7` (so at `safety = 0.7` rule 2
fires), and `pending` otherwise — for every action string and every
safety score in the unit interval. -/
theorem moderation_policy_total (action : String) (safety : ℚ)
    (h0 : 0 ≤ safety) (h1 : safety ≤ 1) :
    (decideStatus action safety = "approved" ∨
     decideStatus action safety = "flagged" ∨
     decideStatus action safety = "pending") ∧
    (decideStatus action safety = "approved" ↔
      action = "allow" ∧ safety < 3 / 10) ∧
    (decideStatus action safety = "flagged" ↔
      ¬(action = "allow" ∧ safety < 3 / 10) ∧
        (action = "block" ∨ 7 / 10 ≤ safety)) ∧
    (decideStatus action safety = "pending" ↔
      ¬(action = "allow" ∧ safety < 3 / 10) ∧
        ¬(action = "block" ∨ 7 / 10 ≤ safety)) := by
  simp only [decideStatus, statusOfJs, isStrEq, jsLtNum, jsGeNum, toNumJs,
    mkRat_three_tenths, mkRat_seven_tenths]
  by_cases ha : action = "allow" <;>
    by_cases hb : action = "block" <;>
      by_cases hc : safety < 3 / 10 <;>
        by_cases hd : 7 / 10 ≤ safety <;>
          simp [ha, hb, hc, hd]

/-- C1 witness: the policy at the boundary `safety = 0.3` with action
`allow`: the hypotheses hold and rule 1 does not fire, so the stored
status is `pending`. -/
theorem moderation_policy_total_witness :
    ((0 : ℚ) ≤ mkRat 3 10 ∧ (mkRat 3 10 : ℚ) ≤ 1) ∧
    decideStatus "allow" (mkRat 3 10) = "pending" := by
  refine ⟨⟨by decide, by decide⟩, ?_⟩
  have h := moderation_policy_total "allow" (mkRat 3 10) (by decide) (by decide)
  refine h.2.2.2.mpr ⟨?_, ?_⟩
  · rintro ⟨-, hlt⟩
    rw [mkRat_three_tenths] at hlt
    exact absurd hlt (by norm_num)
  · rintro (hb | hge)
    · exact absurd hb (by decide)
    · rw [mkRat_three_tenths] at hge
      norm_num at hge

/-! ## Claim C5: classifier parse failure falls back and stores pending -/

/-- C5: when the provider call succeeds (no truthy error field) but
the generated text is not valid JSON — or is empty, in which case the
handler substitutes the empty-object text — the classification is
exactly the fallback `safety = 0.5`, `sentiment = 0`,
`action = "flag"`, the request succeeds, and the review is persisted
with status `pending`. -/
theorem parse_failure_fallback_pending (gd : JsonVal) (req : ReviewReq)
    (store : List Review) (newId now : ℤ)
    (herr : jsTruthyOpt (jGet gd "error") = false)
    (hbad : parseJSON (extractModelText gd) = none ∨
            extractModelText gd = "\x7b\x7d") :
    addReviewModel gd req store newId now =
      (store ++
        [{ id := newId
           business_id := req.business_id
           reviewer_name := req.reviewer_name
           phone := req.phone
           content := req.content
           status := "pending"
           sentiment_score := .num 0
           is_positive := false
           pinned := false
           created_at := now }],
       .ok "pending" (.num (mkRat 1 2)) (.num 0) (.str "flag")) := by
  have hres : orEmptyJs (parseJSON (extractModelText gd)) = .obj [] := by
    rcases hbad with h | h
    · rw [h]; rfl
    · rw [h]; rfl
  unfold addReviewModel
  rw [herr]
  simp only [Bool.false_eq_true, if_false, hres]
  rfl

/-- C5 witness: a provider body whose text is `not json`. -/
theorem parse_failure_fallback_pending_witness :
    jsTruthyOpt (jGet gdBadText "error") = false ∧
    parseJSON (extractModelText gdBadText) = none ∧
    addReviewModel gdBadText reqSample [] 7 100 =
      ([{ id := 7
          business_id := "b1"
          reviewer_name := "n"
          phone := "p"
          content := "c"
          status := "pending"
          sentiment_score := .num 0
          is_positive := false
          pinned := false
          created_at := 100 }],
       .ok "pending" (.num (mkRat 1 2)) (.num 0) (.str "flag")) :=
  ⟨rfl, rfl,
    parse_failure_fallback_pending gdBadText reqSample [] 7 100 rfl (Or.inl rfl)⟩

/-! ## Claim C8: provider error aborts the request before the insert -/

/-- C8: when the provider response body carries a truthy `error`
field, the create-review handler returns the 500 error response and
performs no insert: the store is unchanged. -/
theorem provider_error_aborts_insert (gd : JsonVal) (req : ReviewReq)
    (store : List Review) (newId now : ℤ)
    (h : jsTruthyOpt (jGet gd "error") = true) :
    addReviewModel gd req store newId now = (store, .apiErr) := by
  unfold addReviewModel
  rw [h]
  rfl

/-- C8 witness: a provider body reporting a quota error; the store is
untouched and the response is the 500 error. -/
theorem provider_error_aborts_insert_witness :
    jsTruthyOpt (jGet gdProviderErr "error") = true ∧
    addReviewModel gdProviderErr reqSample [mkRow 1 "b1" "approved" false] 7 100 =
      ([mkRow 1 "b1" "approved" false], .apiErr) :=
  ⟨rfl, provider_error_aborts_insert gdProviderErr reqSample
    [mkRow 1 "b1" "approved" false] 7 100 rfl⟩

/-! ## Helper lemmas: the session move-to-front -/

theorem findIdx_decomp (k : ℤ) :
    ∀ l : List Review, (∃ r ∈ l, r.id = k) →
      ∃ pre r0 post, l = pre ++ r0 :: post ∧ r0.id = k ∧
        (∀ x ∈ pre, x.id ≠ k) ∧
        l.findIdx? (fun r => r.id = k) = some pre.length ∧
        l.get? pre.length = some r0 := by
  intro l
  induction l with
  | nil => rintro ⟨r, hr, -⟩; simp at hr
  | cons a tl ih =>
      rintro ⟨r, hr, hid⟩
      by_cases ha : a.id = k
      · exact ⟨[], a, tl, rfl, ha, by simp, by simp [List.findIdx?_cons, ha], rfl⟩
      · have hmem : ∃ r ∈ tl, r.id = k := by
          rcases List.mem_cons.mp hr with h | h
          · subst h; exact absurd hid ha
          · exact ⟨r, h, hid⟩
        obtain ⟨pre, r0, post, heq, hid0, hpre, hfind, hget⟩ := ih hmem
        refine ⟨a :: pre, r0, post, by rw [heq]; rfl, hid0, ?_, ?_, ?_⟩
        · intro x hx
          rcases List.mem_cons.mp hx with h | h
          · subst h; exact ha
          · exact hpre x h
        · rw [List.findIdx?_cons, if_neg (by simp [ha]), List.findIdx?_succ, hfind]
          rfl
        · simpa using hget

theorem moveIdFirst_of_mem (k : ℤ) (l : List Review) (h : ∃ r ∈ l, r.id = k) :
    ∃ pre r0 post, l = pre ++ r0 :: post ∧ r0.id = k ∧
      (∀ x ∈ pre, x.id ≠ k) ∧ moveIdFirst k l = r0 :: (pre ++ post) := by
  obtain ⟨pre, r0, post, heq, hid0, hpre, hfind, hget⟩ := findIdx_decomp k l h
  refine ⟨pre, r0, post, heq, hid0, hpre, ?_⟩
  have htake : l.take pre.length = pre := by
    rw [heq]; exact List.take_left pre (r0 :: post)
  have hdrop : l.drop (pre.length + 1) = post := by
    rw [heq, show pre ++ r0 :: post = (pre ++ [r0]) ++ post by simp,
      show pre.length + 1 = (pre ++ [r0]).length by simp]
    exact List.drop_left (pre ++ [r0]) post
  simp only [moveIdFirst, hfind, hget, htake, hdrop]

theorem moveIdFirst_no_match (k : ℤ) (l : List Review)
    (h : ∀ r ∈ l, r.id ≠ k) : moveIdFirst k l = l := by
  have hfind : l.findIdx? (fun r => r.id = k) = none :=
    List.findIdx?_eq_none_iff.mpr (fun x hx => by simp [h x hx])
  simp [moveIdFirst, hfind]

/-! ## Claim C7: session anchor reordering is a stable move-to-front -/

/-- C7: when the session anchor parses to an id held by some fetched
review, the first such review moves to position 0 and the relative
order of all other reviews is preserved (the output is that review
followed by the untouched remainder of the fetched order); when no
fetched review has that id, the output is exactly the fetched order. -/
theorem session_anchor_stable_move (reviews : List Review) (s : String) (k : ℤ)
    (hs : s ≠ "") (hp : parseIntJs s = some k) :
    ((∃ r ∈ reviews, r.id = k) →
      ∃ pre r0 post, reviews = pre ++ r0 :: post ∧ r0.id = k ∧
        (∀ x ∈ pre, x.id ≠ k) ∧
        reorderForSession reviews (some s) = r0 :: (pre ++ post)) ∧
    ((∀ r ∈ reviews, r.id ≠ k) →
      reorderForSession reviews (some s) = reviews) := by
  have hred : reorderForSession reviews (some s) = moveIdFirst k reviews := by
    show (if s = "" then reviews
      else match parseIntJs s with
        | none => reviews
        | some k => moveIdFirst k reviews) = moveIdFirst k reviews
    rw [if_neg hs, hp]
  constructor
  · intro hmem
    obtain ⟨pre, r0, post, heq, hid0, hpre, hmove⟩ := moveIdFirst_of_mem k reviews hmem
    exact ⟨pre, r0, post, heq, hid0, hpre, by rw [hred, hmove]⟩
  · intro hno
    rw [hred, moveIdFirst_no_match k reviews hno]

/-- C7 witness: anchor `2` on a three-review fetch moves the second
review to the front and leaves the rest in fetched order, and anchor
id 9, matching nothing, leaves the list unchanged. -/
theorem session_anchor_stable_move_witness :
    (("2" : String) ≠ "" ∧ parseIntJs "2" = some 2) ∧
    (∃ pre r0 post,
      [mkRow 1 "b" "approved" true, mkRow 2 "b" "approved" false,
        mkRow 3 "b" "approved" false] = pre ++ r0 :: post ∧ r0.id = 2 ∧
      (∀ x ∈ pre, x.id ≠ 2) ∧
      reorderForSession
        [mkRow 1 "b" "approved" true, mkRow 2 "b" "approved" false,
          mkRow 3 "b" "approved" false] (some "2") = r0 :: (pre ++ post)) ∧
    reorderForSession [mkRow 1 "b" "approved" true] (some "9") =
      [mkRow 1 "b" "approved" true] := by
  refine ⟨⟨by decide, rfl⟩, ?_, ?_⟩
  · exact (session_anchor_stable_move
      [mkRow 1 "b" "approved" true, mkRow 2 "b" "approved" false,
        mkRow 3 "b" "approved" false] "2" 2 (by decide) rfl).1
      ⟨mkRow 2 "b" "approved" false, by simp, rfl⟩
  · exact (session_anchor_stable_move [mkRow 1 "b" "approved" true] "9" 9
      (by decide) rfl).2 (by intro r hr; rw [List.mem_singleton.mp hr]; decide)

/-! ## Claim C10: anchor matching is strict equality against parseInt -/

/-- C10: the anchor matches by strict equality between the fetched
review's id and `parseInt(sessionAnchorId)`; for every anchor string
whose integer parse equals no fetched review's id — including
non-numeric strings, whose parse is NaN — no reordering occurs and
the output equals the fetched order. -/
theorem session_anchor_strict_parse (reviews : List Review) (s : String)
    (h : ∀ r ∈ reviews, parseIntJs s ≠ some r.id) :
    reorderForSession reviews (some s) = reviews := by
  show (if s = "" then reviews
    else match parseIntJs s with
      | none => reviews
      | some k => moveIdFirst k reviews) = reviews
  by_cases hs : s = ""
  · rw [if_pos hs]
  · rw [if_neg hs]
    cases hp : parseIntJs s with
    | none => rfl
    | some k =>
        apply moveIdFirst_no_match
        intro r hr he
        exact h r hr (by rw [hp, he])

/-- C10 witness: a UUID-like anchor whose parse (`3`, from its digit
prefix) matches no fetched id: the output is the fetched order. -/
theorem session_anchor_strict_parse_witness :
    parseIntJs "3fa85f64-5717-4562-b3fc-2c963f66afa6" = some 3 ∧
    (∀ r ∈ [mkRow 42 "b" "approved" false],
      parseIntJs "3fa85f64-5717-4562-b3fc-2c963f66afa6" ≠ some r.id) ∧
    reorderForSession [mkRow 42 "b" "approved" false]
      (some "3fa85f64-5717-4562-b3fc-2c963f66afa6") =
      [mkRow 42 "b" "approved" false] := by
  refine ⟨rfl, ?_, ?_⟩
  · intro r hr
    rw [List.mem_singleton.mp hr]
    decide
  · exact session_anchor_strict_parse [mkRow 42 "b" "approved" false]
      "3fa85f64-5717-4562-b3fc-2c963f66afa6"
      (by intro r hr; rw [List.mem_singleton.mp hr]; decide)

/-! ## Helper lemmas: the rerank pipeline -/

theorem rerank_clean_run (ans : List Cand → JsonVal) (b : String)
    (store : List Review)
    (h1 : (eligibleOf b store).isEmpty = false)
    (h2 : jsTruthyOpt (jGet (ans ((eligibleOf b store).map candOf)) "error")
      = false) :
    rerankModel cleanBeh ans b store =
      (if (runIds ans b store).isEmpty then unpinAll b store
       else pinIds (runIds ans b store) (unpinAll b store),
       .ok (runIds ans b store).length (runIds ans b store)
         (runReasoning ans b store)) := by
  unfold rerankModel cleanBeh
  simp only [h1, Bool.false_eq_true, if_false, h2, runIds, runReasoning]
  split
  · rfl
  · rfl

theorem elig_map_of (f : Review → Review)
    (hb : ∀ r, (f r).business_id = r.business_id)
    (hs : ∀ r, (f r).status = r.status)
    (hc : ∀ r, candOf (f r) = candOf r) (b : String) (s : List Review) :
    (eligibleOf b (s.map f)).map candOf = (eligibleOf b s).map candOf := by
  unfold eligibleOf
  rw [List.filter_map]
  have hp : ((fun r => decide (r.business_id = b ∧ r.status = "approved")) ∘ f)
      = fun r => decide (r.business_id = b ∧ r.status = "approved") := by
    funext r
    simp [Function.comp, hb, hs]
  rw [hp, List.map_map]
  exact List.map_congr_left (fun r _ => hc r)

theorem elig_map_unpin (b : String) (s : List Review) :
    (eligibleOf b (unpinAll b s)).map candOf = (eligibleOf b s).map candOf := by
  apply elig_map_of
  · intro r; by_cases h : r.business_id = b <;> simp [h]
  · intro r; by_cases h : r.business_id = b <;> simp [h]
  · intro r; by_cases h : r.business_id = b <;> simp [candOf, h]

theorem elig_map_pin (ids : List JsonVal) (b : String) (s : List Review) :
    (eligibleOf b (pinIds ids s)).map candOf = (eligibleOf b s).map candOf := by
  apply elig_map_of
  · intro r; by_cases h : idInIds ids r.id <;> simp [h]
  · intro r; by_cases h : idInIds ids r.id <;> simp [h]
  · intro r; by_cases h : idInIds ids r.id <;> simp [candOf, h]

theorem isEmpty_of_map_candOf_eq {l1 l2 : List Review}
    (h : l1.map candOf = l2.map candOf) : l1.isEmpty = l2.isEmpty := by
  have hl : l1.length = l2.length := by
    have := congrArg List.length h
    simpa using this
  cases l1 <;> cases l2 <;> simp_all

theorem unpin_unpin (b : String) (s : List Review) :
    unpinAll b (unpinAll b s) = unpinAll b s := by
  unfold unpinAll
  rw [List.map_map]
  apply List.map_congr_left
  intro r _
  by_cases h : r.business_id = b <;> simp [Function.comp, h]

theorem pin_unpin_pin (ids : List JsonVal) (b : String) (s : List Review) :
    pinIds ids (unpinAll b (pinIds ids (unpinAll b s))) =
      pinIds ids (unpinAll b s) := by
  unfold pinIds unpinAll
  simp only [List.map_map]
  apply List.map_congr_left
  intro r _
  simp only [Function.comp]
  by_cases hin : idInIds ids r.id <;> by_cases hbz : r.business_id = b <;>
    simp [hin, hbz]

/-! ## Claim C2: the pinned set is not filtered to the business -/

/-- C2 counterexample: with business `b` having the single eligible
review id 1 and the store also holding review id 99 of business `c`,
a classifier return of `[99]` pins review 99 — an id outside `b`'s
eligible set — so the claimed intersection with the eligible set does
not happen. -/
theorem rerank_pins_foreign_id_cx :
    (eligibleOf "b"
      [mkRow 1 "b" "approved" false, mkRow 99 "c" "approved" false]).map
        (fun r => r.id) = [1] ∧
    runIds (fun _ => gdTopOf "[99]") "b"
      [mkRow 1 "b" "approved" false, mkRow 99 "c" "approved" false] =
      [.num 99] ∧
    ((rerankModel cleanBeh (fun _ => gdTopOf "[99]") "b"
      [mkRow 1 "b" "approved" false, mkRow 99 "c" "approved" false]).1).map
        (fun r => (r.id, r.pinned)) = [(1, false), (99, true)] :=
  ⟨rfl, rfl, rfl⟩

/-- C2 (amended): in phase (b) the handler pins by
`.in("id", top_review_ids)` over the whole relation, with no business
or eligibility filtering: after a clean run every row whose id is in
the returned list is pinned (whatever its business or status), every
other row of the business is unpinned, and rows of other businesses
keep their previous flag. -/
theorem rerank_pin_set_unfiltered (ans : List Cand → JsonVal) (b : String)
    (store : List Review)
    (h1 : (eligibleOf b store).isEmpty = false)
    (h2 : jsTruthyOpt (jGet (ans ((eligibleOf b store).map candOf)) "error")
      = false) :
    (rerankModel cleanBeh ans b store).1 =
      store.map (fun r =>
        if idInIds (runIds ans b store) r.id then { r with pinned := true }
        else if r.business_id = b then { r with pinned := false } else r) := by
  rw [rerank_clean_run ans b store h1 h2]
  dsimp only
  by_cases hids : (runIds ans b store).isEmpty = true
  · rw [if_pos hids]
    have hnil : runIds ans b store = [] := List.isEmpty_iff.mp hids
    rw [hnil]
    unfold unpinAll idInIds
    apply List.map_congr_left
    intro r _
    simp
  · rw [if_neg hids]
    unfold pinIds unpinAll
    rw [List.map_map]
    apply List.map_congr_left
    intro r _
    simp only [Function.comp]
    by_cases hin : idInIds (runIds ans b store) r.id <;>
      by_cases hbz : r.business_id = b <;> simp [hin, hbz]

/-- C2 witness: the amended pin-set characterisation at the
counterexample scenario's store. -/
theorem rerank_pin_set_unfiltered_witness :
    (eligibleOf "b"
      [mkRow 1 "b" "approved" false, mkRow 99 "c" "approved" false]).isEmpty
      = false ∧
    jsTruthyOpt (jGet ((fun _ => gdTopOf "[99]")
      ((eligibleOf "b"
        [mkRow 1 "b" "approved" false, mkRow 99 "c" "approved" false]).map
          candOf)) "error") = false ∧
    (rerankModel cleanBeh (fun _ => gdTopOf "[99]") "b"
      [mkRow 1 "b" "approved" false, mkRow 99 "c" "approved" false]).1 =
      [mkRow 1 "b" "approved" false, mkRow 99 "c" "approved" false].map
        (fun r =>
          if idInIds (runIds (fun _ => gdTopOf "[99]") "b"
              [mkRow 1 "b" "approved" false, mkRow 99 "c" "approved" false])
              r.id then
            { r with pinned := true }
          else if r.business_id = "b" then { r with pinned := false } else r) :=
  ⟨rfl, rfl,
    rerank_pin_set_unfiltered (fun _ => gdTopOf "[99]") "b"
      [mkRow 1 "b" "approved" false, mkRow 99 "c" "approved" false] rfl rfl⟩

/-! ## Claim C3: the applied id set is not capped at 3 -/

/-- C3 counterexample: five eligible reviews and a classifier return
of five ids: all five are applied and pinned, not the first three. -/
theorem rerank_no_cap_five_ids_cx :
    runIds (fun _ => gdTopOf "[1,2,3,4,5]") "b"
      [mkRow 1 "b" "approved" false, mkRow 2 "b" "approved" false,
        mkRow 3 "b" "approved" false, mkRow 4 "b" "approved" false,
        mkRow 5 "b" "approved" false] =
      [.num 1, .num 2, .num 3, .num 4, .num 5] ∧
    (((rerankModel cleanBeh (fun _ => gdTopOf "[1,2,3,4,5]") "b"
      [mkRow 1 "b" "approved" false, mkRow 2 "b" "approved" false,
        mkRow 3 "b" "approved" false, mkRow 4 "b" "approved" false,
        mkRow 5 "b" "approved" false]).1).filter
          (fun r => r.pinned)).length = 5 ∧
    ¬(((rerankModel cleanBeh (fun _ => gdTopOf "[1,2,3,4,5]") "b"
      [mkRow 1 "b" "approved" false, mkRow 2 "b" "approved" false,
        mkRow 3 "b" "approved" false, mkRow 4 "b" "approved" false,
        mkRow 5 "b" "approved" false]).1).filter
          (fun r => r.pinned)).length = 3 :=
  ⟨rfl, rfl, by decide⟩

/-- C3 (amended): the handler applies and reports the entire returned
id list with no cap at 3: the success response carries the full list
and its length, and when the list is nonempty the final state pins
exactly the rows whose ids are listed (over the unpinned base). -/
theorem rerank_applies_all_returned_ids (ans : List Cand → JsonVal)
    (b : String) (store : List Review)
    (h1 : (eligibleOf b store).isEmpty = false)
    (h2 : jsTruthyOpt (jGet (ans ((eligibleOf b store).map candOf)) "error")
      = false) :
    (rerankModel cleanBeh ans b store).2 =
      .ok (runIds ans b store).length (runIds ans b store)
        (runReasoning ans b store) ∧
    ((runIds ans b store).isEmpty = false →
      (rerankModel cleanBeh ans b store).1 =
        pinIds (runIds ans b store) (unpinAll b store)) := by
  rw [rerank_clean_run ans b store h1 h2]
  constructor
  · rfl
  · intro h
    dsimp only
    rw [if_neg (by rw [h]; simp)]

/-- C3 witness: the amended no-cap statement at the five-id scenario,
with the reported count equal to 5. -/
theorem rerank_applies_all_returned_ids_witness :
    (eligibleOf "b"
      [mkRow 1 "b" "approved" false, mkRow 2 "b" "approved" false,
        mkRow 3 "b" "approved" false, mkRow 4 "b" "approved" false,
        mkRow 5 "b" "approved" false]).isEmpty = false ∧
    jsTruthyOpt (jGet ((fun _ => gdTopOf "[1,2,3,4,5]")
      ((eligibleOf "b"
        [mkRow 1 "b" "approved" false, mkRow 2 "b" "approved" false,
          mkRow 3 "b" "approved" false, mkRow 4 "b" "approved" false,
          mkRow 5 "b" "approved" false]).map candOf)) "error") = false ∧
    (runIds (fun _ => gdTopOf "[1,2,3,4,5]") "b"
      [mkRow 1 "b" "approved" false, mkRow 2 "b" "approved" false,
        mkRow 3 "b" "approved" false, mkRow 4 "b" "approved" false,
        mkRow 5 "b" "approved" false]).length = 5 ∧
    (rerankModel cleanBeh (fun _ => gdTopOf "[1,2,3,4,5]") "b"
      [mkRow 1 "b" "approved" false, mkRow 2 "b" "approved" false,
        mkRow 3 "b" "approved" false, mkRow 4 "b" "approved" false,
        mkRow 5 "b" "approved" false]).2 =
      .ok (runIds (fun _ => gdTopOf "[1,2,3,4,5]") "b"
        [mkRow 1 "b" "approved" false, mkRow 2 "b" "approved" false,
          mkRow 3 "b" "approved" false, mkRow 4 "b" "approved" false,
          mkRow 5 "b" "approved" false]).length
        (runIds (fun _ => gdTopOf "[1,2,3,4,5]") "b"
          [mkRow 1 "b" "approved" false, mkRow 2 "b" "approved" false,
            mkRow 3 "b" "approved" false, mkRow 4 "b" "approved" false,
            mkRow 5 "b" "approved" false])
        (runReasoning (fun _ => gdTopOf "[1,2,3,4,5]") "b"
          [mkRow 1 "b" "approved" false, mkRow 2 "b" "approved" false,
            mkRow 3 "b" "approved" false, mkRow 4 "b" "approved" false,
            mkRow 5 "b" "approved" false]) :=
  ⟨rfl, rfl, rfl,
    (rerank_applies_all_returned_ids (fun _ => gdTopOf "[1,2,3,4,5]") "b"
      [mkRow 1 "b" "approved" false, mkRow 2 "b" "approved" false,
        mkRow 3 "b" "approved" false, mkRow 4 "b" "approved" false,
        mkRow 5 "b" "approved" false] rfl rfl).1⟩

/-! ## Claim C4: an unpin failure does not abort phase (b) -/

/-- C4 counterexample: phase (a) fails (`unpinErr`), yet the handler
continues into phase (b): the response is the normal success (the
store error is not reported), review 1's stale pin from a previous run
survives, and review 2's new pin is applied alongside it. -/
theorem rerank_unpin_error_continues_cx :
    rerankModel { fetchErr := none, unpinErr := some "boom", pinErr := none }
      (fun _ => gdTopOf "[2]") "b"
      [mkRow 1 "b" "approved" true, mkRow 2 "b" "approved" false] =
      ([mkRow 1 "b" "approved" true, mkRow 2 "b" "approved" true],
       .ok 1 [.num 2] (some (.str "r"))) :=
  rfl

/-- C4 (amended): when phase (a) fails the handler only logs the
error and proceeds to phase (b); with a nonempty id list and a
successful pin, the run returns the normal success response (the
phase-(a) store error is not reported) and the final state is the
pins applied over the un-unpinned store, so pins from a previous run
can coexist with the newly applied pins. -/
theorem rerank_unpin_error_continues (ans : List Cand → JsonVal) (b : String)
    (store : List Review) (m : String)
    (h1 : (eligibleOf b store).isEmpty = false)
    (h2 : jsTruthyOpt (jGet (ans ((eligibleOf b store).map candOf)) "error")
      = false)
    (h3 : (runIds ans b store).isEmpty = false) :
    rerankModel { fetchErr := none, unpinErr := some m, pinErr := none }
      ans b store =
      (pinIds (runIds ans b store) store,
       .ok (runIds ans b store).length (runIds ans b store)
         (runReasoning ans b store)) := by
  unfold rerankModel
  simp only [h1, Bool.false_eq_true, if_false, h2, runIds, runReasoning] at h3 ⊢
  rw [if_neg (by rw [h3]; simp)]

/-- C4 witness: the amended continue-on-unpin-error statement at the
counterexample scenario. -/
theorem rerank_unpin_error_continues_witness :
    (eligibleOf "b"
      [mkRow 1 "b" "approved" true, mkRow 2 "b" "approved" false]).isEmpty
      = false ∧
    jsTruthyOpt (jGet ((fun _ => gdTopOf "[2]")
      ((eligibleOf "b"
        [mkRow 1 "b" "approved" true, mkRow 2 "b" "approved" false]).map
          candOf)) "error") = false ∧
    (runIds (fun _ => gdTopOf "[2]") "b"
      [mkRow 1 "b" "approved" true, mkRow 2 "b" "approved" false]).isEmpty
      = false ∧
    rerankModel { fetchErr := none, unpinErr := some "late", pinErr := none }
      (fun _ => gdTopOf "[2]") "b"
      [mkRow 1 "b" "approved" true, mkRow 2 "b" "approved" false] =
      (pinIds (runIds (fun _ => gdTopOf "[2]") "b"
          [mkRow 1 "b" "approved" true, mkRow 2 "b" "approved" false])
        [mkRow 1 "b" "approved" true, mkRow 2 "b" "approved" false],
       .ok (runIds (fun _ => gdTopOf "[2]") "b"
          [mkRow 1 "b" "approved" true, mkRow 2 "b" "approved" false]).length
        (runIds (fun _ => gdTopOf "[2]") "b"
          [mkRow 1 "b" "approved" true, mkRow 2 "b" "approved" false])
        (runReasoning (fun _ => gdTopOf "[2]") "b"
          [mkRow 1 "b" "approved" true, mkRow 2 "b" "approved" false])) :=
  ⟨rfl, rfl, rfl,
    rerank_unpin_error_continues (fun _ => gdTopOf "[2]") "b"
      [mkRow 1 "b" "approved" true, mkRow 2 "b" "approved" false]
      "late" rfl rfl rfl⟩

/-! ## Claim C9: rerank is idempotent under a deterministic classifier -/

/-- C9: with error-free store behaviour and a deterministic classifier
(a function of the candidate projection), running rerank twice for the
same business over unchanged review data yields the same final store
as running it once; and the candidate projection sent to the
classifier does not depend on the pinned flag the first run changed. -/
theorem rerank_idempotent (ans : List Cand → JsonVal) (b : String)
    (store : List Review) :
    (rerankModel cleanBeh ans b ((rerankModel cleanBeh ans b store).1)).1 =
      (rerankModel cleanBeh ans b store).1 ∧
    (∀ (r : Review) (p : Bool), candOf { r with pinned := p } = candOf r) := by
  refine ⟨?_, fun r p => rfl⟩
  by_cases h1 : (eligibleOf b store).isEmpty = true
  · have hfix : (rerankModel cleanBeh ans b store).1 = store := by
      simp [rerankModel, cleanBeh, h1]
    rw [hfix]
    exact hfix
  · have h1' : (eligibleOf b store).isEmpty = false := by
      rcases Bool.eq_false_or_eq_true (eligibleOf b store).isEmpty with h | h
      · exact absurd h h1
      · exact h
    by_cases h2 : jsTruthyOpt
        (jGet (ans ((eligibleOf b store).map candOf)) "error") = true
    · have hfix : (rerankModel cleanBeh ans b store).1 = store := by
        simp [rerankModel, cleanBeh, h1', h2]
      rw [hfix]
      exact hfix
    · have h2' : jsTruthyOpt
          (jGet (ans ((eligibleOf b store).map candOf)) "error") = false := by
        rcases Bool.eq_false_or_eq_true (jsTruthyOpt
          (jGet (ans ((eligibleOf b store).map candOf)) "error")) with h | h
        · exact absurd h h2
        · exact h
      rw [rerank_clean_run ans b store h1' h2']
      dsimp only
      by_cases hids : (runIds ans b store).isEmpty = true
      · rw [if_pos hids]
        have hmap : (eligibleOf b (unpinAll b store)).map candOf =
            (eligibleOf b store).map candOf := elig_map_unpin b store
        have h1'' : (eligibleOf b (unpinAll b store)).isEmpty = false := by
          rw [isEmpty_of_map_candOf_eq hmap]; exact h1'
        have h2'' : jsTruthyOpt (jGet
            (ans ((eligibleOf b (unpinAll b store)).map candOf)) "error")
            = false := by rw [hmap]; exact h2'
        rw [rerank_clean_run ans b (unpinAll b store) h1'' h2'']
        dsimp only
        have hids_eq : runIds ans b (unpinAll b store) = runIds ans b store := by
          unfold runIds; rw [hmap]
        rw [hids_eq, if_pos hids, unpin_unpin]
      · rw [if_neg hids]
        have hmap : (eligibleOf b
            (pinIds (runIds ans b store) (unpinAll b store))).map candOf =
            (eligibleOf b store).map candOf := by
          rw [elig_map_pin, elig_map_unpin]
        have h1'' : (eligibleOf b
            (pinIds (runIds ans b store) (unpinAll b store))).isEmpty
            = false := by
          rw [isEmpty_of_map_candOf_eq hmap]; exact h1'
        have h2'' : jsTruthyOpt (jGet (ans ((eligibleOf b
            (pinIds (runIds ans b store) (unpinAll b store))).map candOf))
            "error") = false := by rw [hmap]; exact h2'
        rw [rerank_clean_run ans b
          (pinIds (runIds ans b store) (unpinAll b store)) h1'' h2'']
        dsimp only
        have hids_eq : runIds ans b
            (pinIds (runIds ans b store) (unpinAll b store)) =
            runIds ans b store := by
          show topIdsOf (extractModelText (ans ((eligibleOf b
              (pinIds (runIds ans b store) (unpinAll b store))).map candOf)))
            = topIdsOf (extractModelText (ans ((eligibleOf b store).map candOf)))
          rw [hmap]
        rw [hids_eq, if_neg hids, pin_unpin_pin]
